import Mathlib

/-!
Verification development for the sismosve earthquake-feed service.

The Python sources are shallowly embedded:
* `app/models/schemas.py` pydantic models become Lean structures; all
  textual fields are `String`, JSON numbers (the geometry coordinates)
  are modelled exactly by `ℚ`.
* `float(...)` / `int(...)` on strings become `pythonFloat?` /
  `pythonInt?` returning `Option` (the `try/except` around them becomes
  a `match`).  Finite decimal/exponent literals are modelled; the exotic
  forms (`inf`, `nan`, underscore separators) are treated as
  unparseable, which no claim depends on.
* `app/services/sismos_service.py` and the stats-mutating part of
  `app/services/updater_service.py` are translated function by function
  below, next to their claims.
-/

attribute [local semireducible] Rat.add Rat.mul Rat.inv Rat.sub Rat.ofScientific

/-- Longest prefix of digit characters together with the rest
(helper for the `float()` / `int()` models). -/
def takeDigits : List Char → List Char × List Char
  | [] => ([], [])
  | c :: rest =>
    if c.isDigit then
      let (ds, r) := takeDigits rest
      (c :: ds, r)
    else ([], c :: rest)

/-- Strip leading and trailing whitespace (the stripping `float()` and
`int()` perform on their argument). -/
def trimChars (cs : List Char) : List Char :=
  ((cs.dropWhile Char.isWhitespace).reverse.dropWhile Char.isWhitespace).reverse

/-- Python `s.split(sep)` for a one-character separator: the split is
total, adjacent separators produce empty parts, and the empty string
splits to `[""]`. -/
def splitOnChar (sep : Char) : List Char → List (List Char)
  | [] => [[]]
  | c :: rest =>
    let r := splitOnChar sep rest
    if c = sep then [] :: r
    else
      match r with
      | [] => [[c]]
      | g :: gs => (c :: g) :: gs

/-- Value of a digit string, most significant digit first. -/
def digitsToNat (cs : List Char) : Nat :=
  cs.foldl (fun n c => n * 10 + (c.toNat - ('0').toNat)) 0

/-- Model of Python `float(s)` on finite decimal literals: optional
surrounding whitespace, optional sign, digits with an optional dot and
fractional part (at least one digit overall), optional decimal exponent.
Returns the exact rational value. -/
def pythonFloat? (s : String) : Option ℚ :=
  let cs := trimChars s.toList
  let (sgn, cs1) : ℚ × List Char :=
    match cs with
    | '+' :: r => (1, r)
    | '-' :: r => (-1, r)
    | r => (1, r)
  let (intDs, cs2) := takeDigits cs1
  let (fracDs, cs3) : List Char × List Char :=
    match cs2 with
    | '.' :: r => takeDigits r
    | r => ([], r)
  if intDs.isEmpty && fracDs.isEmpty then none
  else
    let mantissa : ℚ :=
      (digitsToNat intDs : ℚ) + (digitsToNat fracDs : ℚ) / ((10 : ℚ) ^ fracDs.length)
    match cs3 with
    | 'e' :: r | 'E' :: r =>
      let (esgn, r1) : Int × List Char :=
        match r with
        | '+' :: r2 => (1, r2)
        | '-' :: r2 => (-1, r2)
        | r2 => (1, r2)
      let (eds, r2) := takeDigits r1
      if eds.isEmpty || !r2.isEmpty then none
      else some (sgn * mantissa * (10 : ℚ) ^ (esgn * (digitsToNat eds : Int)))
    | [] => some (sgn * mantissa)
    | _ => none

/-- Model of Python `int(...)` on a character sequence: optional
surrounding whitespace, optional sign, a nonempty digit string and
nothing else. -/
def pythonIntChars? (cs0 : List Char) : Option Int :=
  let cs := trimChars cs0
  let (sgn, cs1) : Int × List Char :=
    match cs with
    | '+' :: r => (1, r)
    | '-' :: r => (-1, r)
    | r => (1, r)
  let (ds, rest) := takeDigits cs1
  if ds.isEmpty || !rest.isEmpty then none
  else some (sgn * (digitsToNat ds : Int))

/-- Model of Python `int(s)` on a string. -/
def pythonInt? (s : String) : Option Int :=
  pythonIntChars? s.toList

/-! ## Data model (`app/models/schemas.py`) -/

/-- Model of `Geometry`: point type, `[lng, lat]` coordinates, optional marker. -/
structure Geometry where
  type : String
  coordinates : List ℚ
  marcador : Option String
  deriving DecidableEq, Repr

/-- Model of `SismoProperties`: the normalized per-event property set. -/
structure SismoProperties where
  depth : String
  value : String
  addressFormatted : String
  time : String
  country : String
  date : String
  lat : String
  long : String
  deriving DecidableEq, Repr

/-- Model of `Sismo`: one normalized earthquake feature. -/
structure Sismo where
  type : String
  geometry : Geometry
  properties : SismoProperties
  deriving DecidableEq, Repr

/-- Model of `SismosCollection`: the normalized collection (an `EventCollection`). -/
structure SismosCollection where
  type : String
  features : List Sismo
  deriving DecidableEq, Repr

/-- Model of `FunvisisProperties`: the raw provider per-feature property set. -/
structure FunvisisProperties where
  phoneFormatted : String
  phone : String
  address : String
  city : String
  country : String
  postalCode : String
  state : String
  lat : String
  long : String
  deriving DecidableEq, Repr

/-- Model of `FunvisisGeometry`: raw provider geometry (marker required here). -/
structure FunvisisGeometry where
  type : String
  coordinates : List ℚ
  marcador : String
  deriving DecidableEq, Repr

/-- Model of `FunvisisFeature`: one raw provider feature. -/
structure FunvisisFeature where
  type : String
  geometry : FunvisisGeometry
  properties : FunvisisProperties
  deriving DecidableEq, Repr

/-- Model of `FunvisisCollection`: the raw provider collection. -/
structure FunvisisCollection where
  type : String
  features : List FunvisisFeature
  deriving DecidableEq, Repr

/-! ## SchemaTransformer (`SismosService.transform_funvisis_to_sismos`) -/

/-- Body of the `for feature in funvisis_data.features` loop: builds one
normalized `Sismo` from one raw feature.  Python's
`phoneFormatted or state` yields `state` exactly when `phoneFormatted`
is the empty (falsy) string. -/
def transformFeature (feature : FunvisisFeature) : Sismo :=
  { type := "Sismo"
    geometry :=
      { type := feature.geometry.type
        coordinates := feature.geometry.coordinates
        marcador := some feature.geometry.marcador }
    properties :=
      { depth :=
          if feature.properties.phoneFormatted = "" then feature.properties.state
          else feature.properties.phoneFormatted
        value := feature.properties.phone
        addressFormatted := feature.properties.address
        time := feature.properties.city
        country := feature.properties.country
        date := feature.properties.postalCode
        lat := feature.properties.lat
        long := feature.properties.long } }

/-- Model of `SismosService.transform_funvisis_to_sismos`. -/
def transform_funvisis_to_sismos (funvisis_data : FunvisisCollection) : SismosCollection :=
  { type := "sismos", features := funvisis_data.features.map transformFeature }

/-! ## Date-time parsing (`SismosService._parse_datetime`)

`datetime` values are represented by their lexicographic encoding
`encodeDT`, which is strictly monotone in `(year, month, day, hour,
minute)` on the ranges `datetime` accepts, so comparisons of encodings
agree with comparisons of the Python `datetime` objects. -/

/-- Gregorian leap-year test (as in Python's `calendar`/`datetime`). -/
def isLeapYear (y : Int) : Bool :=
  (y % 4 == 0 && y % 100 != 0) || (y % 400 == 0)

/-- Number of days of month `mo` in year `y`. -/
def daysInMonth (y mo : Int) : Int :=
  if mo == 2 then (if isLeapYear y then 29 else 28)
  else if mo == 4 || mo == 6 || mo == 9 || mo == 11 then 30
  else 31

/-- The argument ranges the `datetime(year, month, day, hour, minute)`
constructor accepts (`MINYEAR = 1`, `MAXYEAR = 9999`). -/
def validDT (y mo d h mi : Int) : Prop :=
  1 ≤ y ∧ y ≤ 9999 ∧ 1 ≤ mo ∧ mo ≤ 12 ∧ 1 ≤ d ∧ d ≤ daysInMonth y mo ∧
  0 ≤ h ∧ h ≤ 23 ∧ 0 ≤ mi ∧ mi ≤ 59

instance (y mo d h mi : Int) : Decidable (validDT y mo d h mi) := by
  unfold validDT; infer_instance

/-- Order-preserving encoding of a valid `datetime` tuple. -/
def encodeDT (y mo d h mi : Int) : Int :=
  (((y * 13 + mo) * 32 + d) * 24 + h) * 60 + mi

/-- The value `datetime.min = datetime(1, 1, 1, 0, 0)` under `encodeDT`. -/
def dtMin : Int := encodeDT 1 1 1 0 0

/-- Model of `SismosService._parse_datetime`: split the date on `"-"` into
exactly three parts and the time on `":"` into exactly two, convert all
parts with `int(...)`, and build the `datetime`; any failure (wrong
part count, non-integer part, out-of-range value) is caught by the bare
`except` and yields `datetime.min`. -/
def parse_datetime (date_str time_str : String) : Int :=
  match splitOnChar '-' date_str.toList, splitOnChar ':' time_str.toList with
  | [d, mo, y], [h, mi] =>
    match pythonIntChars? y, pythonIntChars? mo, pythonIntChars? d,
        pythonIntChars? h, pythonIntChars? mi with
    | some yv, some mov, some dv, some hv, some miv =>
      if validDT yv mov dv hv miv then encodeDT yv mov dv hv miv else dtMin
    | _, _, _, _, _ => dtMin
  | _, _ => dtMin

/-! ## SnapshotReader queries (`SismosService`) -/

/-- Model of `SismosStats` (the two `datetime.now()` timestamps in the service
are modelled by an abstract clock value passed in by the caller). -/
structure SismosStats where
  total_sismos : Nat
  magnitud_minima : ℚ
  magnitud_maxima : ℚ
  magnitud_promedio : ℚ
  ultimo_sismo : Option Sismo
  ultima_actualizacion : Nat
  deriving DecidableEq, Repr

/-- Python `min(list)` on a nonempty list (the `[]` case is never
reached at the call site, which substitutes `[0.0]` first). -/
def pyMin : List ℚ → ℚ
  | [] => 0
  | x :: xs => xs.foldl min x

/-- Python `max(list)` on a nonempty list. -/
def pyMax : List ℚ → ℚ
  | [] => 0
  | x :: xs => xs.foldl max x

/-- The sort key used by `get_recent_sismos` and
`_get_latest_earthquake`. -/
def sismoKey (s : Sismo) : Int :=
  parse_datetime s.properties.date s.properties.time

/-- Model of `SismosService._get_latest_earthquake`: Python's
`max(sismos, key=...)`, which keeps the first element among ties. -/
def get_latest_earthquake : List Sismo → Option Sismo
  | [] => none
  | s :: rest =>
    some (rest.foldl (fun best x => if sismoKey best < sismoKey x then x else best) s)

/-- Model of `SismosService.get_sismos_stats`: magnitudes are collected from the
features whose `value` converts with `float(...)` (conversion failures
are skipped), with `[0.0]` substituted when none convert. -/
def get_sismos_stats (now : Nat) (sismos : SismosCollection) : SismosStats :=
  if sismos.features.isEmpty then
    { total_sismos := 0
      magnitud_minima := 0
      magnitud_maxima := 0
      magnitud_promedio := 0
      ultimo_sismo := none
      ultima_actualizacion := now }
  else
    let magnitudes0 := sismos.features.filterMap fun s => pythonFloat? s.properties.value
    let magnitudes := if magnitudes0.isEmpty then [0] else magnitudes0
    { total_sismos := sismos.features.length
      magnitud_minima := pyMin magnitudes
      magnitud_maxima := pyMax magnitudes
      magnitud_promedio := magnitudes.sum / (magnitudes.length : ℚ)
      ultimo_sismo := get_latest_earthquake sismos.features
      ultima_actualizacion := now }

/-- The `for sismo in sismos.features` loop of
`SismosService.get_sismos_by_magnitude`: append the feature when its
`value` converts and is `>=` the threshold, `continue` on conversion
failure. -/
def filterByMagnitudeLoop (min_magnitude : ℚ) : List Sismo → List Sismo
  | [] => []
  | sismo :: rest =>
    match pythonFloat? sismo.properties.value with
    | some mag =>
      if min_magnitude ≤ mag then sismo :: filterByMagnitudeLoop min_magnitude rest
      else filterByMagnitudeLoop min_magnitude rest
    | none => filterByMagnitudeLoop min_magnitude rest

/-- Model of `SismosService.get_sismos_by_magnitude`. -/
def get_sismos_by_magnitude (sismos : SismosCollection) (min_magnitude : ℚ) : List Sismo :=
  filterByMagnitudeLoop min_magnitude sismos.features

/-- Sorting relation of `get_recent_sismos`: descending parsed
date-time. -/
def recentRel (a b : Sismo) : Prop := sismoKey b ≤ sismoKey a

instance : DecidableRel recentRel := fun a b =>
  inferInstanceAs (Decidable (sismoKey b ≤ sismoKey a))

instance : IsTotal Sismo recentRel := ⟨fun a b => le_total (sismoKey b) (sismoKey a)⟩

instance : IsTrans Sismo recentRel := ⟨fun _ _ _ h1 h2 => le_trans h2 h1⟩

/-- Model of `SismosService.get_recent_sismos`: a stable sort by parsed
date-time, most recent first (Python's `sorted(..., reverse=True)`,
modelled by Mathlib's stable `insertionSort`), truncated to `limit`. -/
def get_recent_sismos (sismos : SismosCollection) (limit : Nat := 10) : List Sismo :=
  (sismos.features.insertionSort recentRel).take limit

/-! ## Refresh cycle accounting (`UpdaterService.update_sismos_data`)

The cycle's interaction with the outside world (the HTTP fetch, the
save, an exception escaping the body of the `try`) is summarised by a
`CycleOutcome`; the function below performs exactly the
`update_stats` mutations and the `return`s that
`update_sismos_data` performs on the corresponding control path.  The
`last_update` wall-clock field is not modelled. -/

/-- The mutable counters of `UpdaterService.update_stats`. -/
structure UpdateStats where
  total_updates : Nat
  successful_updates : Nat
  failed_updates : Nat
  last_error : Option String
  deriving DecidableEq, Repr

/-- The dictionary `UpdaterService.__init__` starts with. -/
def initialUpdateStats : UpdateStats :=
  { total_updates := 0, successful_updates := 0, failed_updates := 0, last_error := none }

/-- How one refresh cycle exits: `_download_funvisis_data` returned
`None`; `save_sismos` returned `False`; an exception with message `msg`
reached the outer `except`; or the save succeeded. -/
inductive CycleOutcome where
  | fetchFailure
  | saveFailure
  | exceptionRaised (msg : String)
  | success
  deriving DecidableEq, Repr

/-- Model of `UpdaterService.update_sismos_data`: increments `total_updates` on
entry, then follows the exit path given by the outcome, returning the
new stats and the function's boolean result. -/
def update_sismos_data (st : UpdateStats) (outcome : CycleOutcome) : UpdateStats × Bool :=
  let st1 := { st with total_updates := st.total_updates + 1 }
  match outcome with
  | .fetchFailure => ({ st1 with failed_updates := st1.failed_updates + 1 }, false)
  | .saveFailure => ({ st1 with failed_updates := st1.failed_updates + 1 }, false)
  | .exceptionRaised msg =>
    ({ st1 with failed_updates := st1.failed_updates + 1, last_error := some msg }, false)
  | .success => ({ st1 with successful_updates := st1.successful_updates + 1 }, true)

/-- A sequence of refresh cycles with the given outcomes. -/
def runCycles (outcomes : List CycleOutcome) (st : UpdateStats) : UpdateStats :=
  outcomes.foldl (fun s o => (update_sismos_data s o).1) st

/-! ## Snapshot persistence, data path (`load_sismos` / `save_sismos`)

The snapshot file's parsed content is a `Json` value.  `json.load`
failing, like the file being absent, is one of the `FileRead` cases
that `load_sismos` turns into `None`.  The pydantic decoders below
follow pydantic's validation of the models of `schemas.py`: required
fields must be present with the declared type, fields with defaults may
be absent, `Optional` fields also accept `null`, and extra keys are
ignored.  (Pydantic v1's lenient coercions of non-string scalars into
`str` fields are not modelled; no claim depends on them.) -/

/-- Parsed JSON documents. -/
inductive Json where
  | null
  | str (s : String)
  | num (q : ℚ)
  | arr (elems : List Json)
  | obj (fields : List (String × Json))
  deriving Repr

/-- Field lookup in a JSON object (`dict.get`): first binding wins. -/
def jsonField (fields : List (String × Json)) (k : String) : Option Json :=
  (fields.find? fun kv => decide (kv.1 = k)).map (·.2)

/-- Decode a required `str` field. -/
def decodeStr (fields : List (String × Json)) (k : String) : Option String :=
  match jsonField fields k with
  | some (Json.str s) => some s
  | _ => none

/-- Decode a `str` field with a default (used when the key is absent). -/
def decodeStrD (fields : List (String × Json)) (k : String) (dflt : String) : Option String :=
  match fields.find? fun kv => decide (kv.1 = k) with
  | none => some dflt
  | some kv =>
    match kv.2 with
    | Json.str s => some s
    | _ => none

/-- Decode an `Optional[str]` field (absent or `null` gives `none`). -/
def decodeOptStr (fields : List (String × Json)) (k : String) : Option (Option String) :=
  match fields.find? fun kv => decide (kv.1 = k) with
  | none => some none
  | some kv =>
    match kv.2 with
    | Json.null => some none
    | Json.str s => some (some s)
    | _ => none

/-- Decode a `List[float]` value. -/
def decodeNum : Json → Option ℚ
  | Json.num q => some q
  | _ => none

/-- Sequence a decoder over a list of JSON values (pydantic validating
each element of a JSON array; any element failure fails the list). -/
def decodeList (dec : Json → Option a) : List Json → Option (List a)
  | [] => some []
  | j :: rest => do
    let x ← dec j
    let xs ← decodeList dec rest
    some (x :: xs)

/-- Decode a `List[float]` value. -/
def decodeNums : Json → Option (List ℚ)
  | Json.arr es => decodeList decodeNum es
  | _ => none

/-- Pydantic validation of `Geometry`. -/
def decodeGeometry : Json → Option Geometry
  | Json.obj fields => do
    let t ← decodeStrD fields "type" "Point"
    let coordsJson ← jsonField fields "coordinates"
    let coords ← decodeNums coordsJson
    let m ← decodeOptStr fields "marcador"
    some { type := t, coordinates := coords, marcador := m }
  | _ => none

/-- Pydantic validation of `SismoProperties`. -/
def decodeSismoProperties : Json → Option SismoProperties
  | Json.obj fields => do
    let depth ← decodeStr fields "depth"
    let value ← decodeStr fields "value"
    let addressFormatted ← decodeStr fields "addressFormatted"
    let time ← decodeStr fields "time"
    let country ← decodeStr fields "country"
    let date ← decodeStr fields "date"
    let lat ← decodeStr fields "lat"
    let long ← decodeStr fields "long"
    some { depth := depth, value := value, addressFormatted := addressFormatted,
           time := time, country := country, date := date, lat := lat, long := long }
  | _ => none

/-- Pydantic validation of `Sismo`. -/
def decodeSismo : Json → Option Sismo
  | Json.obj fields => do
    let t ← decodeStrD fields "type" "Sismo"
    let gJson ← jsonField fields "geometry"
    let g ← decodeGeometry gJson
    let pJson ← jsonField fields "properties"
    let p ← decodeSismoProperties pJson
    some { type := t, geometry := g, properties := p }
  | _ => none

/-- Pydantic validation of `SismosCollection` (`SismosCollection(**data)`). -/
def decodeSismosCollection : Json → Option SismosCollection
  | Json.obj fields => do
    let t ← decodeStrD fields "type" "sismos"
    let fsJson ← jsonField fields "features"
    match fsJson with
    | Json.arr es => do
      let features ← decodeList decodeSismo es
      some { type := t, features := features }
    | _ => none
  | _ => none

/-- Pydantic validation of `FunvisisProperties`. -/
def decodeFunvisisProperties : Json → Option FunvisisProperties
  | Json.obj fields => do
    let phoneFormatted ← decodeStr fields "phoneFormatted"
    let phone ← decodeStr fields "phone"
    let address ← decodeStr fields "address"
    let city ← decodeStr fields "city"
    let country ← decodeStr fields "country"
    let postalCode ← decodeStr fields "postalCode"
    let state ← decodeStr fields "state"
    let lat ← decodeStr fields "lat"
    let long ← decodeStr fields "long"
    some { phoneFormatted := phoneFormatted, phone := phone, address := address,
           city := city, country := country, postalCode := postalCode,
           state := state, lat := lat, long := long }
  | _ => none

/-- Pydantic validation of `FunvisisGeometry` (all fields required). -/
def decodeFunvisisGeometry : Json → Option FunvisisGeometry
  | Json.obj fields => do
    let t ← decodeStr fields "type"
    let coordsJson ← jsonField fields "coordinates"
    let coords ← decodeNums coordsJson
    let m ← decodeStr fields "marcador"
    some { type := t, coordinates := coords, marcador := m }
  | _ => none

/-- Pydantic validation of `FunvisisFeature`. -/
def decodeFunvisisFeature : Json → Option FunvisisFeature
  | Json.obj fields => do
    let t ← decodeStr fields "type"
    let gJson ← jsonField fields "geometry"
    let g ← decodeFunvisisGeometry gJson
    let pJson ← jsonField fields "properties"
    let p ← decodeFunvisisProperties pJson
    some { type := t, geometry := g, properties := p }
  | _ => none

/-- Pydantic validation of `FunvisisCollection` (`FunvisisCollection(**data)`). -/
def decodeFunvisisCollection : Json → Option FunvisisCollection
  | Json.obj fields => do
    let t ← decodeStr fields "type"
    let fsJson ← jsonField fields "features"
    match fsJson with
    | Json.arr es => do
      let features ← decodeList decodeFunvisisFeature es
      some { type := t, features := features }
    | _ => none
  | _ => none

/-- Model of `Geometry.dict()` as serialized by `json.dump`. -/
def Geometry.toJson (g : Geometry) : Json :=
  Json.obj
    [("type", Json.str g.type),
     ("coordinates", Json.arr (g.coordinates.map Json.num)),
     ("marcador", match g.marcador with | none => Json.null | some s => Json.str s)]

/-- Model of `SismoProperties.dict()` as serialized by `json.dump`. -/
def SismoProperties.toJson (p : SismoProperties) : Json :=
  Json.obj
    [("depth", Json.str p.depth), ("value", Json.str p.value),
     ("addressFormatted", Json.str p.addressFormatted), ("time", Json.str p.time),
     ("country", Json.str p.country), ("date", Json.str p.date),
     ("lat", Json.str p.lat), ("long", Json.str p.long)]

/-- Model of `Sismo.dict()` as serialized by `json.dump`. -/
def Sismo.toJson (s : Sismo) : Json :=
  Json.obj
    [("type", Json.str s.type),
     ("geometry", s.geometry.toJson),
     ("properties", s.properties.toJson)]

/-- Model of `SismosCollection.dict()` as serialized by `json.dump` — the
content `save_sismos` writes to the snapshot file. -/
def SismosCollection.toJson (c : SismosCollection) : Json :=
  Json.obj
    [("type", Json.str c.type),
     ("features", Json.arr (c.features.map Sismo.toJson))]

/-- What reading the snapshot file can observe: the file is absent
(`os.path.exists` is false), its bytes fail `json.load`, or they parse
to a `Json` document. -/
inductive FileRead where
  | absent
  | unparseable
  | json (j : Json)

/-- Python's `data.get("type") == "FeatureCollection"`: true exactly
when the field is present and is that string (any other JSON value
compares unequal to a `str`). -/
def isFeatureCollectionTag (o : Option Json) : Bool :=
  match o with
  | some (Json.str s) => s == "FeatureCollection"
  | _ => false

/-- Model of `SismosService.load_sismos`: `None` when the file is absent or
`json.load` raises; otherwise route on `data.get("type") ==
"FeatureCollection"` (`.get` on a non-`dict` document raises an
`AttributeError`, caught by the blanket `except` into `None`): the
FUNVISIS branch validates and transforms, the other branch validates as
the normalized shape; a pydantic `ValidationError` in either branch is
caught into `None`. -/
def load_sismos : FileRead → Option SismosCollection
  | .absent => none
  | .unparseable => none
  | .json (Json.obj fields) =>
    if isFeatureCollectionTag (jsonField fields "type") then
      match decodeFunvisisCollection (Json.obj fields) with
      | some funvisis_data => some (transform_funvisis_to_sismos funvisis_data)
      | none => none
    else decodeSismosCollection (Json.obj fields)
  | .json _ => none

/-- The data path of `SismosService.save_sismos`: on a successful save
the snapshot file's parsed content is exactly the JSON serialization of
`sismos.dict()` (backup handling, which does not touch the written
content, is modelled separately below). -/
def save_sismos (sismos : SismosCollection) : FileRead :=
  .json sismos.toJson

/-! ## Snapshot persistence, file-system path (backups)

For `_create_backup` / `_cleanup_old_backups` the directory is a list
of entries (name, mtime).  File names are structured so that the glob
pattern `f"{self.data_file}.backup_*"` is the predicate it denotes:
`backupFile base stamp` prints as `base + ".backup_" + stamp` and is
matched by the glob for that `base`; the snapshot file `snapshotFile
base` and unrelated files are not (the snapshot's name is a strict
prefix of every backup name).  The backup-name timestamp and file
mtimes come from one abstract `Nat` clock. -/

/-- A file name in the service's working directory. -/
inductive FileName where
  | snapshotFile (base : String)
  | backupFile (base : String) (stamp : Nat)
  | otherFile (s : String)
  deriving DecidableEq, Repr

/-- The glob `f"{base}.backup_*"` as a predicate on file names. -/
def matchesBackupGlob (base : String) : FileName → Bool
  | .backupFile b _ => b == base
  | _ => false

/-- A directory entry: a name and a modification time. -/
structure FileEnt where
  name : FileName
  mtime : Nat
  deriving DecidableEq, Repr

/-- Model of `glob.glob(f"{self.data_file}.backup_*")`. -/
def globBackups (base : String) (fs : List FileEnt) : List FileEnt :=
  fs.filter fun f => matchesBackupGlob base f.name

/-- The key of `backup_files.sort(key=os.path.getmtime)`. -/
def mtimeLe (a b : FileEnt) : Prop := a.mtime ≤ b.mtime

instance : DecidableRel mtimeLe := fun a b =>
  inferInstanceAs (Decidable (a.mtime ≤ b.mtime))

instance : IsTotal FileEnt mtimeLe := ⟨fun a b => le_total a.mtime b.mtime⟩

instance : IsTrans FileEnt mtimeLe := ⟨fun _ _ _ h1 h2 => le_trans h1 h2⟩

/-- Model of `SismosService._cleanup_old_backups`: glob the backups; when more
than `max_backups` exist, sort them by mtime ascending and delete all
but the newest `max_backups` (`backup_files[:-max_backups]`). -/
def cleanup_old_backups (base : String) (fs : List FileEnt) (max_backups : Nat := 5) :
    List FileEnt :=
  let backup_files := globBackups base fs
  if backup_files.length > max_backups then
    let sorted := backup_files.insertionSort mtimeLe
    let files_to_delete := sorted.take (sorted.length - max_backups)
    fs.filter fun f => decide (f ∉ files_to_delete)
  else fs

/-- Overwrite-or-create of file `n` at time `m` (what `shutil.copy2`
does at its destination and `open(..., "w")` does at the target). -/
def writeEntry (n : FileName) (m : Nat) (fs : List FileEnt) : List FileEnt :=
  { name := n, mtime := m } :: fs.filter fun f => decide (f.name ≠ n)

/-- Model of `SismosService._create_backup`: copy the snapshot to
`<data_file>.backup_<timestamp>` — `shutil.copy2` preserves the
source's mtime at the destination — then run the cleanup.  When the
snapshot is missing the copy raises and the `except` skips the cleanup
(the caller only invokes this when the snapshot exists). -/
def create_backup (base : String) (now : Nat) (fs : List FileEnt) : List FileEnt :=
  match fs.find? fun f => decide (f.name = FileName.snapshotFile base) with
  | none => fs
  | some snap =>
    cleanup_old_backups base (writeEntry (FileName.backupFile base now) snap.mtime fs)

/-- The file-system path of `SismosService.save_sismos`: back up first
when requested and the snapshot exists, then overwrite the snapshot
(the written content is `save_sismos` above). -/
def save_sismos_files (base : String) (now : Nat) (backup : Bool) (fs : List FileEnt) :
    List FileEnt :=
  let fs1 :=
    if backup && (fs.any fun f => decide (f.name = FileName.snapshotFile base)) then
      create_backup base now fs
    else fs
  writeEntry (FileName.snapshotFile base) now fs1

/-- Runs `B` consecutive saves with `backup = true`, one per clock tick in
`times`. -/
def iterSaves (base : String) (times : List Nat) (fs : List FileEnt) : List FileEnt :=
  times.foldl (fun acc t => save_sismos_files base t true acc) fs

/-- The backup entry that the save at time `t` creates when the
snapshot was last written at time `m`. -/
def backupEntAt (base : String) (m t : Nat) : FileEnt :=
  { name := FileName.backupFile base t, mtime := m }

/-- The backups created by saves at `times`, in creation order, when
the snapshot existed since time `t0`: the save at time `tᵢ` copies a
snapshot carrying mtime `tᵢ₋₁`. -/
def createdBackups (base : String) (t0 : Nat) : List Nat → List FileEnt
  | [] => []
  | t :: ts => backupEntAt base t0 t :: createdBackups base t ts

/-! ## Concrete sample data (used by witnesses) -/

/-- A raw provider property set with a nonempty `phoneFormatted`. -/
def sampleRawProps : FunvisisProperties :=
  { phoneFormatted := "30.0 Km", phone := "4.2", address := "Some place", city := "03:05",
    country := "Venezuela", postalCode := "01-01-2024", state := "fallback state",
    lat := "10.5", long := "-66.9" }

/-- A raw provider feature. -/
def sampleRawFeature : FunvisisFeature :=
  { type := "Feature",
    geometry := { type := "Point", coordinates := [-669/10, 21/2], marcador := "rojo" },
    properties := sampleRawProps }

/-- The same raw feature with an empty `phoneFormatted`. -/
def sampleRawFeatureEmptyPF : FunvisisFeature :=
  { sampleRawFeature with properties := { sampleRawProps with phoneFormatted := "" } }

/-- A normalized event with the given magnitude, date and time. -/
def mkSismo (value date time : String) : Sismo :=
  { type := "Sismo",
    geometry := { type := "Point", coordinates := [0], marcador := none },
    properties := { depth := "10 Km", value := value, addressFormatted := "addr",
                    time := time, country := "VE", date := date, lat := "0", long := "0" } }

/-- A small normalized collection: one parseable magnitude `4.2`, one
unparseable, one parseable `6.0`; dates in mixed order. -/
def sampleColl : SismosCollection :=
  { type := "sismos",
    features := [mkSismo "4.2" "01-01-2024" "03:05",
                 mkSismo "not-a-number" "02-01-2024" "04:00",
                 mkSismo "6.0" "31-12-2023" "10:15"] }

/-! ## Claims -/

/-- C9: for every raw provider feature, the transformed event's depth
equals the raw `phoneFormatted` when that string is nonempty, and the
raw `state` when `phoneFormatted` is the empty string. -/
theorem depth_from_phoneFormatted_or_state (feature : FunvisisFeature) :
    (feature.properties.phoneFormatted ≠ "" →
       (transformFeature feature).properties.depth = feature.properties.phoneFormatted) ∧
    (feature.properties.phoneFormatted = "" →
       (transformFeature feature).properties.depth = feature.properties.state) := by
  refine ⟨fun h => ?_, fun h => ?_⟩ <;> simp [transformFeature, h]

/-- Witness for C9: both branches at concrete raw features. -/
theorem depth_from_phoneFormatted_or_state_witness :
    (sampleRawFeature.properties.phoneFormatted ≠ "" ∧
       (transformFeature sampleRawFeature).properties.depth =
         sampleRawFeature.properties.phoneFormatted) ∧
    (sampleRawFeatureEmptyPF.properties.phoneFormatted = "" ∧
       (transformFeature sampleRawFeatureEmptyPF).properties.depth =
         sampleRawFeatureEmptyPF.properties.state) :=
  ⟨⟨by decide, (depth_from_phoneFormatted_or_state sampleRawFeature).1 (by decide)⟩,
   ⟨by decide, (depth_from_phoneFormatted_or_state sampleRawFeatureEmptyPF).2 (by decide)⟩⟩

/-- C8: the FUNVISIS transformation is a pure, total, order-preserving
mapping — output length equals input length, the `i`-th output is
exactly the image of the `i`-th input — and each feature's geometry
type, coordinate pair and marker are copied through unchanged. -/
theorem transform_order_preserving_geometry_copied (c : FunvisisCollection) :
    (transform_funvisis_to_sismos c).features.length = c.features.length ∧
    (∀ i : Nat, (transform_funvisis_to_sismos c).features[i]? =
       (c.features[i]?).map transformFeature) ∧
    (∀ feature : FunvisisFeature,
       (transformFeature feature).geometry.type = feature.geometry.type ∧
       (transformFeature feature).geometry.coordinates = feature.geometry.coordinates ∧
       (transformFeature feature).geometry.marcador = some feature.geometry.marcador) := by
  refine ⟨?_, fun i => ?_, fun f => ⟨rfl, rfl, rfl⟩⟩ <;>
    simp [transform_funvisis_to_sismos]

/-- Bool form of the magnitude test in `get_sismos_by_magnitude`. -/
def magFilterPred (min_magnitude : ℚ) (s : Sismo) : Bool :=
  match pythonFloat? s.properties.value with
  | some mag => decide (min_magnitude ≤ mag)
  | none => false

/-- The append-loop of `get_sismos_by_magnitude` is a `filter`. -/
theorem filterByMagnitudeLoop_eq_filter (x : ℚ) (l : List Sismo) :
    filterByMagnitudeLoop x l = l.filter (magFilterPred x) := by
  induction l with
  | nil => rfl
  | cons s rest ih =>
    rw [filterByMagnitudeLoop, List.filter_cons]
    cases h : pythonFloat? s.properties.value with
    | none => simp [magFilterPred, h, ih]
    | some m =>
      by_cases hx : x ≤ m
      · simp [magFilterPred, h, hx, ih]
      · simp [magFilterPred, h, hx, ih]

/-- C7: magnitude filtering returns an order-preserving subsequence of
`c.features` — exactly the features whose magnitude string parses to a
float `≥ x`; features with unparseable or smaller magnitudes are
excluded. -/
theorem filter_by_magnitude_spec (c : SismosCollection) (x : ℚ) :
    (get_sismos_by_magnitude c x).Sublist c.features ∧
    get_sismos_by_magnitude c x = c.features.filter (magFilterPred x) ∧
    (∀ s, s ∈ get_sismos_by_magnitude c x ↔
       s ∈ c.features ∧ ∃ m, pythonFloat? s.properties.value = some m ∧ x ≤ m) := by
  have he : get_sismos_by_magnitude c x = c.features.filter (magFilterPred x) :=
    filterByMagnitudeLoop_eq_filter x c.features
  refine ⟨he ▸ List.filter_sublist _, he, fun s => ?_⟩
  rw [he, List.mem_filter]
  constructor
  · rintro ⟨hs, hp⟩
    refine ⟨hs, ?_⟩
    unfold magFilterPred at hp
    cases h : pythonFloat? s.properties.value with
    | none => rw [h] at hp; exact absurd hp (by simp)
    | some m =>
      rw [h] at hp
      exact ⟨m, rfl, of_decide_eq_true hp⟩
  · rintro ⟨hs, m, hm, hx⟩
    refine ⟨hs, ?_⟩
    unfold magFilterPred
    rw [hm]
    exact decide_eq_true hx

/-- Witness for C7: the membership characterization at a concrete
collection and threshold. -/
theorem filter_by_magnitude_spec_witness :
    mkSismo "4.2" "01-01-2024" "03:05" ∈ get_sismos_by_magnitude sampleColl 4 ↔
      mkSismo "4.2" "01-01-2024" "03:05" ∈ sampleColl.features ∧
        ∃ m, pythonFloat? (mkSismo "4.2" "01-01-2024" "03:05").properties.value = some m ∧
          (4 : ℚ) ≤ m :=
  (filter_by_magnitude_spec sampleColl 4).2.2 (mkSismo "4.2" "01-01-2024" "03:05")

/-- C1 counterexample: after cycles with outcomes
[fetch-failure, success, fetch-failure] the counters are `total = 3`,
`successful = 1`, `failed = 2` as claimed, but `last_error` is still
`None` — the most recent failure (a fetch failure) left no message —
and after [exception "boom", success, fetch-failure] it still holds the
older exception's message, not the most recent failure's: `last_error`
does not reflect the most recent failure's message. -/
theorem refresh_lastError_counterexample :
    (runCycles [.fetchFailure, .success, .fetchFailure] initialUpdateStats).total_updates = 3 ∧
    (runCycles [.fetchFailure, .success, .fetchFailure] initialUpdateStats).successful_updates
      = 1 ∧
    (runCycles [.fetchFailure, .success, .fetchFailure] initialUpdateStats).failed_updates = 2 ∧
    (runCycles [.fetchFailure, .success, .fetchFailure] initialUpdateStats).last_error = none ∧
    (runCycles [.exceptionRaised "boom", .success, .fetchFailure]
        initialUpdateStats).last_error = some "boom" := by
  refine ⟨rfl, rfl, rfl, rfl, rfl⟩

/-- C1 (amended): every cycle increments the total counter exactly once
and exactly one of the successful/failed counters exactly once,
regardless of the exit path; `last_error` is set (to the exception's
message) only on the exception exit path and is left unchanged by fetch
failures, save failures and successes; in particular the outcome
sequence [exception e1, success, exception e2] ends with `total = 3`,
`successful = 1`, `failed = 2` and `last_error = e2`. -/
theorem refresh_cycle_accounting (st : UpdateStats) (o : CycleOutcome) :
    (update_sismos_data st o).1.total_updates = st.total_updates + 1 ∧
    (update_sismos_data st o).1.successful_updates + (update_sismos_data st o).1.failed_updates
      = st.successful_updates + st.failed_updates + 1 ∧
    (o = .success →
       (update_sismos_data st o).1.successful_updates = st.successful_updates + 1 ∧
       (update_sismos_data st o).1.failed_updates = st.failed_updates) ∧
    (o ≠ .success →
       (update_sismos_data st o).1.failed_updates = st.failed_updates + 1 ∧
       (update_sismos_data st o).1.successful_updates = st.successful_updates) ∧
    (∀ msg, o = .exceptionRaised msg → (update_sismos_data st o).1.last_error = some msg) ∧
    ((∀ msg, o ≠ .exceptionRaised msg) →
       (update_sismos_data st o).1.last_error = st.last_error) ∧
    runCycles [.exceptionRaised "e1", .success, .exceptionRaised "e2"] initialUpdateStats
      = { total_updates := 3, successful_updates := 1, failed_updates := 2,
          last_error := some "e2" } := by
  cases o <;> simp [update_sismos_data, runCycles, initialUpdateStats] <;> omega

/-- Witness for C1: the per-path clauses at concrete states and
outcomes. -/
theorem refresh_cycle_accounting_witness :
    ((update_sismos_data initialUpdateStats .success).1.successful_updates
        = initialUpdateStats.successful_updates + 1 ∧
      (update_sismos_data initialUpdateStats .success).1.failed_updates
        = initialUpdateStats.failed_updates) ∧
    ((update_sismos_data initialUpdateStats .fetchFailure).1.failed_updates
        = initialUpdateStats.failed_updates + 1 ∧
      (update_sismos_data initialUpdateStats .fetchFailure).1.successful_updates
        = initialUpdateStats.successful_updates) ∧
    (update_sismos_data initialUpdateStats (.exceptionRaised "err")).1.last_error
      = some "err" ∧
    (update_sismos_data initialUpdateStats .saveFailure).1.last_error
      = initialUpdateStats.last_error :=
  ⟨(refresh_cycle_accounting initialUpdateStats .success).2.2.1 rfl,
   (refresh_cycle_accounting initialUpdateStats .fetchFailure).2.2.2.1 (by decide),
   (refresh_cycle_accounting initialUpdateStats (.exceptionRaised "err")).2.2.2.2.1 "err" rfl,
   (refresh_cycle_accounting initialUpdateStats .saveFailure).2.2.2.2.2.1
     (fun msg h => by simp at h)⟩

/-- The multiset `get_sismos_stats` aggregates over: the parsed
magnitudes, or the singleton `[0]` (the spec's `{0.0}`) when none
parse. -/
def statsMagSet (c : SismosCollection) : List ℚ :=
  let parsed := c.features.filterMap fun s => pythonFloat? s.properties.value
  if parsed.isEmpty then [0] else parsed

/-- The stats fields on a nonempty collection, written with
`statsMagSet`. -/
theorem get_sismos_stats_eq (now : Nat) (c : SismosCollection)
    (h : ¬ c.features.isEmpty = true) :
    get_sismos_stats now c =
      { total_sismos := c.features.length
        magnitud_minima := pyMin (statsMagSet c)
        magnitud_maxima := pyMax (statsMagSet c)
        magnitud_promedio := (statsMagSet c).sum / ((statsMagSet c).length : ℚ)
        ultimo_sismo := get_latest_earthquake c.features
        ultima_actualizacion := now } := by
  rw [get_sismos_stats, if_neg h]
  rfl

/-- A left fold with `min` is bounded by its starting value. -/
theorem foldl_min_le_init (l : List ℚ) : ∀ a : ℚ, l.foldl min a ≤ a := by
  induction l with
  | nil => intro a; exact le_refl a
  | cons x xs ih =>
    intro a
    exact le_trans (ih (min a x)) (min_le_left a x)

/-- A left fold with `min` is bounded by every list element. -/
theorem foldl_min_le_mem (l : List ℚ) : ∀ (a : ℚ), ∀ y ∈ l, l.foldl min a ≤ y := by
  induction l with
  | nil => intro a y hy; cases hy
  | cons x xs ih =>
    intro a y hy
    rcases List.mem_cons.mp hy with rfl | hy
    · exact le_trans (foldl_min_le_init xs (min a y)) (min_le_right a y)
    · exact ih (min a x) y hy

/-- A left fold with `min` is the start or one of the elements. -/
theorem foldl_min_mem (l : List ℚ) : ∀ a : ℚ, l.foldl min a = a ∨ l.foldl min a ∈ l := by
  induction l with
  | nil => intro a; exact Or.inl rfl
  | cons x xs ih =>
    intro a
    rcases ih (min a x) with h | h
    · rcases min_cases a x with ⟨hm, _⟩ | ⟨hm, _⟩
      · exact Or.inl (by rw [List.foldl_cons, h, hm])
      · exact Or.inr (by rw [List.foldl_cons, h, hm]; exact List.mem_cons_self x xs)
    · exact Or.inr (List.mem_cons_of_mem x h)

/-- The `pyMin` of a nonempty list is a member and a lower bound. -/
theorem pyMin_spec (x : ℚ) (xs : List ℚ) :
    pyMin (x :: xs) ∈ x :: xs ∧ ∀ y ∈ x :: xs, pyMin (x :: xs) ≤ y := by
  constructor
  · rcases foldl_min_mem xs x with h | h
    · rw [pyMin, h]; exact List.mem_cons_self x xs
    · exact List.mem_cons_of_mem x (by rw [pyMin]; exact h)
  · intro y hy
    rcases List.mem_cons.mp hy with rfl | hy
    · exact foldl_min_le_init xs y
    · exact foldl_min_le_mem xs x y hy

/-- A left fold with `max` is bounded below by its starting value. -/
theorem foldl_max_ge_init (l : List ℚ) : ∀ a : ℚ, a ≤ l.foldl max a := by
  induction l with
  | nil => intro a; exact le_refl a
  | cons x xs ih =>
    intro a
    exact le_trans (le_max_left a x) (ih (max a x))

/-- A left fold with `max` is bounded below by every list element. -/
theorem foldl_max_ge_mem (l : List ℚ) : ∀ (a : ℚ), ∀ y ∈ l, y ≤ l.foldl max a := by
  induction l with
  | nil => intro a y hy; cases hy
  | cons x xs ih =>
    intro a y hy
    rcases List.mem_cons.mp hy with rfl | hy
    · exact le_trans (le_max_right a y) (foldl_max_ge_init xs (max a y))
    · exact ih (max a x) y hy

/-- A left fold with `max` is the start or one of the elements. -/
theorem foldl_max_mem (l : List ℚ) : ∀ a : ℚ, l.foldl max a = a ∨ l.foldl max a ∈ l := by
  induction l with
  | nil => intro a; exact Or.inl rfl
  | cons x xs ih =>
    intro a
    rcases ih (max a x) with h | h
    · rcases max_cases a x with ⟨hm, _⟩ | ⟨hm, _⟩
      · exact Or.inl (by rw [List.foldl_cons, h, hm])
      · exact Or.inr (by rw [List.foldl_cons, h, hm]; exact List.mem_cons_self x xs)
    · exact Or.inr (List.mem_cons_of_mem x h)

/-- The `pyMax` of a nonempty list is a member and an upper bound. -/
theorem pyMax_spec (x : ℚ) (xs : List ℚ) :
    pyMax (x :: xs) ∈ x :: xs ∧ ∀ y ∈ x :: xs, y ≤ pyMax (x :: xs) := by
  constructor
  · rcases foldl_max_mem xs x with h | h
    · rw [pyMax, h]; exact List.mem_cons_self x xs
    · exact List.mem_cons_of_mem x (by rw [pyMax]; exact h)
  · intro y hy
    rcases List.mem_cons.mp hy with rfl | hy
    · exact foldl_max_ge_init xs y
    · exact foldl_max_ge_mem xs x y hy

/-- C2: for every collection (with `N` features, `M` of which have
magnitude strings convertible by `float(...)`) the stats report
`total = N`, and the minimum, maximum and average magnitude are
computed over exactly those `M` parsed values — or over the singleton
`{0.0}` when `M = 0`: the reported minimum/maximum is a member of that
multiset and a lower/upper bound of it, and the reported average times
the multiset's size is its sum. -/
theorem stats_over_parsed_magnitudes (now : Nat) (c : SismosCollection) :
    (get_sismos_stats now c).total_sismos = c.features.length ∧
    ((get_sismos_stats now c).magnitud_minima ∈ statsMagSet c ∧
      ∀ y ∈ statsMagSet c, (get_sismos_stats now c).magnitud_minima ≤ y) ∧
    ((get_sismos_stats now c).magnitud_maxima ∈ statsMagSet c ∧
      ∀ y ∈ statsMagSet c, y ≤ (get_sismos_stats now c).magnitud_maxima) ∧
    (get_sismos_stats now c).magnitud_promedio * ((statsMagSet c).length : ℚ)
      = (statsMagSet c).sum := by
  by_cases hf : c.features.isEmpty
  · have hf' : c.features = [] := List.isEmpty_iff.mp hf
    rw [get_sismos_stats, if_pos hf, statsMagSet]
    simp [hf']
  · rw [get_sismos_stats_eq now c hf]
    have hne : statsMagSet c ≠ [] := by
      rw [statsMagSet]
      split
      · exact List.cons_ne_nil _ _
      · rename_i hp
        exact fun he => hp (by rw [he]; rfl)
    obtain ⟨x, xs, hx⟩ := List.exists_cons_of_ne_nil hne
    rw [hx]
    refine ⟨rfl, pyMin_spec x xs, pyMax_spec x xs, ?_⟩
    have hlen : (((x :: xs).length : Nat) : ℚ) ≠ 0 := by
      have h1 : (0 : ℚ) < (((x :: xs).length : Nat) : ℚ) := by
        exact_mod_cast Nat.succ_pos xs.length
      exact ne_of_gt h1
    rw [div_mul_cancel₀ _ hlen]

/-- Witness for C2: the lower-bound clause at a concrete collection and
member. -/
theorem stats_over_parsed_magnitudes_witness :
    (6 : ℚ) ∈ statsMagSet sampleColl ∧
      (get_sismos_stats 0 sampleColl).magnitud_minima ≤ 6 :=
  ⟨by decide, (stats_over_parsed_magnitudes 0 sampleColl).2.1.2 6 (by decide)⟩

/-- What `_parse_datetime` actually requires to produce a real
timestamp: the date splits on `"-"` into exactly three parts and the
time on `":"` into exactly two, every part converts with `int(...)`,
and the values form a valid calendar date-time.  (This is weaker than
the zero-padded shapes `DD-MM-YYYY` / `HH:MM`.) -/
def wellFormedDT (date_str time_str : String) : Prop :=
  ∃ ds ms ys hs mis yv mov dv hv miv,
    splitOnChar '-' date_str.toList = [ds, ms, ys] ∧
    splitOnChar ':' time_str.toList = [hs, mis] ∧
    pythonIntChars? ys = some yv ∧ pythonIntChars? ms = some mov ∧
    pythonIntChars? ds = some dv ∧ pythonIntChars? hs = some hv ∧
    pythonIntChars? mis = some miv ∧ validDT yv mov dv hv miv

/-- Every failure mode of `_parse_datetime` yields `datetime.min`. -/
theorem parse_datetime_of_not_wellFormed (d t : String) (h : ¬ wellFormedDT d t) :
    parse_datetime d t = dtMin := by
  rw [parse_datetime]
  split
  · rename_i ds ms ys hs mis hd ht
    split
    · rename_i yv mov dv hv miv hy hm hdd hh hmi
      split
      · rename_i hvalid
        exact absurd
          ⟨ds, ms, ys, hs, mis, yv, mov, dv, hv, miv, hd, ht, hy, hm, hdd, hh, hmi, hvalid⟩ h
      · rfl
    · rfl
  · rfl

/-- The encoding `datetime.min` is a lower bound of every valid encoding. -/
theorem dtMin_le_encodeDT (y mo d h mi : Int) (hv : validDT y mo d h mi) :
    dtMin ≤ encodeDT y mo d h mi := by
  obtain ⟨h1, _, h3, _, h5, _, h7, _, h9, _⟩ := hv
  have e1 : (14 : Int) ≤ y * 13 + mo := by linarith
  have e2 : (449 : Int) ≤ (y * 13 + mo) * 32 + d := by nlinarith
  have e3 : (10776 : Int) ≤ ((y * 13 + mo) * 32 + d) * 24 + h := by nlinarith
  have e4 : (646560 : Int) ≤ (((y * 13 + mo) * 32 + d) * 24 + h) * 60 + mi := by nlinarith
  have hdtMin : dtMin = (646560 : Int) := by decide
  rw [hdtMin, encodeDT]
  exact e4

/-- Parsed timestamps never sort below `datetime.min`. -/
theorem dtMin_le_parse_datetime (d t : String) : dtMin ≤ parse_datetime d t := by
  rw [parse_datetime]
  split
  · split
    · split
      · rename_i hvalid
        exact dtMin_le_encodeDT _ _ _ _ _ hvalid
      · exact le_refl dtMin
    · exact le_refl dtMin
  · exact le_refl dtMin

/-- C6 counterexample: the claim requires every date not of the exact
shape `DD-MM-YYYY` (and time not of shape `HH:MM`) to parse to the
minimum representable timestamp, but the unpadded `"1-1-2024"` with
time `"3:5"` — not of those shapes — parses to the real timestamp
`datetime(2024, 1, 1, 3, 5)`, not to `datetime.min`. -/
theorem recent_exact_shape_counterexample :
    parse_datetime "1-1-2024" "3:5" = encodeDT 2024 1 1 3 5 ∧
    parse_datetime "1-1-2024" "3:5" ≠ dtMin := by
  exact ⟨by decide, by decide⟩

/-- C6 (amended): `recent(c, k)` returns exactly `min k N` events (so
at most `k`, and malformed entries are not excluded), sorted by parsed
date-time descending, all drawn from `c.features`; a date/time pair
fails to a real timestamp exactly when it splits into three `"-"` /
two `":"` integer parts forming a valid calendar date-time — any
other value (not merely any value off the `DD-MM-YYYY` / `HH:MM`
shapes) parses to the minimum representable timestamp and therefore
sorts to the oldest position. -/
theorem recent_sorted_and_parse_policy (c : SismosCollection) (k : Nat) :
    (get_recent_sismos c k).length = min k c.features.length ∧
    List.Sorted recentRel (get_recent_sismos c k) ∧
    (∀ s, s ∈ get_recent_sismos c k → s ∈ c.features) ∧
    (∀ d t, ¬ wellFormedDT d t → parse_datetime d t = dtMin) ∧
    (∀ d t, dtMin ≤ parse_datetime d t) := by
  refine ⟨?_, ?_, ?_, parse_datetime_of_not_wellFormed, dtMin_le_parse_datetime⟩
  · rw [get_recent_sismos, List.length_take, List.length_insertionSort]
  · exact (List.sorted_insertionSort recentRel c.features).sublist
      (List.take_sublist k _)
  · intro s hs
    have h1 : s ∈ c.features.insertionSort recentRel :=
      (List.take_sublist k _).mem hs
    exact (List.mem_insertionSort recentRel).mp h1

/-- Witness for C6: membership and the malformed-parse clause at
concrete inputs. -/
theorem recent_sorted_and_parse_policy_witness :
    mkSismo "6.0" "31-12-2023" "10:15" ∈ sampleColl.features ∧
    parse_datetime "baddate" "99" = dtMin :=
  ⟨(recent_sorted_and_parse_policy sampleColl 3).2.2.1 _ (by decide),
   (recent_sorted_and_parse_policy sampleColl 3).2.2.2.1 "baddate" "99"
     (fun hwf => by
       obtain ⟨ds, ms, ys, hs, mis, _, _, _, _, _, hd, _⟩ := hwf
       have hlen : (splitOnChar '-' "baddate".toList).length = 3 := by rw [hd]; rfl
       exact absurd hlen (by decide))⟩

/-- The pruning branch that deletes nothing. -/
theorem cleanup_old_backups_of_le (base : String) (fs : List FileEnt)
    (h : ¬ (globBackups base fs).length > 5) :
    cleanup_old_backups base fs = fs := by
  simp only [cleanup_old_backups, if_neg h]

/-- The pruning branch that deletes the oldest extra backups. -/
theorem cleanup_old_backups_of_gt (base : String) (fs : List FileEnt)
    (h : (globBackups base fs).length > 5) :
    cleanup_old_backups base fs =
      fs.filter fun f => decide (f ∉
        ((globBackups base fs).insertionSort mtimeLe).take
          (((globBackups base fs).insertionSort mtimeLe).length - 5)) := by
  simp only [cleanup_old_backups, if_pos h]

/-- Everything pruning ever deletes is a glob match. -/
theorem mem_glob_of_mem_toDelete (base : String) (fs : List FileEnt) (n : Nat) :
    ∀ x ∈ ((globBackups base fs).insertionSort mtimeLe).take n,
      matchesBackupGlob base x.name = true := by
  intro x hx
  have h1 : x ∈ (globBackups base fs).insertionSort mtimeLe :=
    (List.take_sublist n _).mem hx
  have h2 : x ∈ globBackups base fs := (List.mem_insertionSort mtimeLe).mp h1
  exact (List.mem_filter.mp h2).2

/-- C10: pruning only ever deletes files whose names match the glob
`<snapshot-file>.backup_*`; every entry not matching the glob — the
snapshot file in particular, whose name never matches — survives
untouched; the surviving entries are a subsequence of the directory;
and with at most 5 backups present, pruning deletes nothing. -/
theorem cleanup_frame (base : String) (fs : List FileEnt) :
    (∀ f ∈ fs, f ∉ cleanup_old_backups base fs → matchesBackupGlob base f.name = true) ∧
    (∀ f ∈ fs, matchesBackupGlob base f.name = false → f ∈ cleanup_old_backups base fs) ∧
    (∀ f ∈ fs, f.name = FileName.snapshotFile base → f ∈ cleanup_old_backups base fs) ∧
    matchesBackupGlob base (FileName.snapshotFile base) = false ∧
    ((globBackups base fs).length ≤ 5 → cleanup_old_backups base fs = fs) ∧
    (cleanup_old_backups base fs).Sublist fs := by
  by_cases hlen : (globBackups base fs).length > 5
  · rw [cleanup_old_backups_of_gt base fs hlen]
    refine ⟨?_, ?_, ?_, rfl, ?_, List.filter_sublist fs⟩
    · intro f hf hnot
      by_contra hmatch
      refine hnot (List.mem_filter.mpr ⟨hf, ?_⟩)
      rw [decide_eq_true_eq]
      intro hdel
      exact hmatch (mem_glob_of_mem_toDelete base fs _ f hdel)
    · intro f hf hmatch
      refine List.mem_filter.mpr ⟨hf, ?_⟩
      rw [decide_eq_true_eq]
      intro hdel
      rw [mem_glob_of_mem_toDelete base fs _ f hdel] at hmatch
      cases hmatch
    · intro f hf hname
      refine List.mem_filter.mpr ⟨hf, ?_⟩
      rw [decide_eq_true_eq]
      intro hdel
      have := mem_glob_of_mem_toDelete base fs _ f hdel
      rw [hname] at this
      cases this
    · intro hle
      exact absurd hlen (not_lt.mpr hle)
  · rw [cleanup_old_backups_of_le base fs hlen]
    exact ⟨fun f hf hnot => absurd hf hnot,
           fun f hf _ => hf,
           fun f hf _ => hf,
           rfl,
           fun _ => rfl,
           List.Sublist.refl fs⟩

/-- Witness for C10: the untouched-snapshot clause and the
no-deletion clause at a concrete directory. -/
theorem cleanup_frame_witness :
    ({ name := FileName.snapshotFile "data.json", mtime := 9 } : FileEnt) ∈
      cleanup_old_backups "data.json"
        [{ name := FileName.snapshotFile "data.json", mtime := 9 },
         { name := FileName.backupFile "data.json" 3, mtime := 2 }] ∧
    cleanup_old_backups "data.json"
        [{ name := FileName.snapshotFile "data.json", mtime := 9 },
         { name := FileName.backupFile "data.json" 3, mtime := 2 }] =
      [{ name := FileName.snapshotFile "data.json", mtime := 9 },
       { name := FileName.backupFile "data.json" 3, mtime := 2 }] :=
  ⟨(cleanup_frame "data.json" _).2.2.1 _ (by decide) rfl,
   (cleanup_frame "data.json" _).2.2.2.2.1 (by decide)⟩

/-- Decoding with `decodeNums` inverts the serialization of a float list. -/
theorem decodeNums_toJson (l : List ℚ) :
    decodeNums (Json.arr (l.map Json.num)) = some l := by
  show decodeList decodeNum (l.map Json.num) = some l
  induction l with
  | nil => rfl
  | cons x xs ih => rw [List.map_cons, decodeList, ih]; rfl

/-- Decoding with `decodeGeometry` inverts `Geometry.toJson`. -/
theorem decodeGeometry_toJson (g : Geometry) : decodeGeometry g.toJson = some g := by
  cases g with
  | mk t coords m =>
    cases m <;>
      simp [Geometry.toJson, decodeGeometry, decodeStrD, decodeOptStr, jsonField,
        List.find?, decodeNums_toJson]

/-- Decoding with `decodeSismoProperties` inverts `SismoProperties.toJson`. -/
theorem decodeSismoProperties_toJson (p : SismoProperties) :
    decodeSismoProperties p.toJson = some p := by
  cases p
  simp [SismoProperties.toJson, decodeSismoProperties, decodeStr, jsonField, List.find?]

/-- Decoding with `decodeSismo` inverts `Sismo.toJson`. -/
theorem decodeSismo_toJson (s : Sismo) : decodeSismo s.toJson = some s := by
  cases s with
  | mk t g p =>
    simp [Sismo.toJson, decodeSismo, decodeStrD, jsonField, List.find?,
      decodeGeometry_toJson, decodeSismoProperties_toJson]

/-- Element-wise decoding inverts the serialization of a feature list. -/
theorem decodeList_decodeSismo_map (l : List Sismo) :
    decodeList decodeSismo (l.map Sismo.toJson) = some l := by
  induction l with
  | nil => rfl
  | cons x xs ih => rw [List.map_cons, decodeList, decodeSismo_toJson, ih]; rfl

/-- C3: for every already-normalized collection `c` (type tag
`"sismos"`, as `transform_funvisis_to_sismos` produces), loading the
file content written by a successful save returns a collection equal to
`c` — same feature count and field values. -/
theorem load_save_roundtrip (c : SismosCollection) (h : c.type = "sismos") :
    load_sismos (save_sismos c) = some c := by
  cases c with
  | mk t features =>
    simp only at h
    subst h
    simp [save_sismos, SismosCollection.toJson, load_sismos, isFeatureCollectionTag,
      jsonField, List.find?, decodeSismosCollection, decodeStrD,
      decodeList_decodeSismo_map]

/-- Witness for C3: the round trip at a concrete collection. -/
theorem load_save_roundtrip_witness :
    sampleColl.type = "sismos" ∧ load_sismos (save_sismos sampleColl) = some sampleColl :=
  ⟨rfl, load_save_roundtrip sampleColl rfl⟩

/-- A JSON document with the raw provider's feature shape. -/
def sampleRawFeatureJson : Json :=
  Json.obj
    [("type", Json.str "Feature"),
     ("geometry", Json.obj
        [("type", Json.str "Point"),
         ("coordinates", Json.arr [Json.num (-669/10), Json.num (21/2)]),
         ("marcador", Json.str "rojo")]),
     ("properties", Json.obj
        [("phoneFormatted", Json.str "30.0 Km"), ("phone", Json.str "4.2"),
         ("address", Json.str "Some place"), ("city", Json.str "03:05"),
         ("country", Json.str "Venezuela"), ("postalCode", Json.str "01-01-2024"),
         ("state", Json.str "fallback state"), ("lat", Json.str "10.5"),
         ("long", Json.str "-66.9")])]

/-- A document that validates as the raw provider shape but whose
`type` tag is not `"FeatureCollection"`. -/
def untaggedRawJson : Json :=
  Json.obj [("type", Json.str "X"), ("features", Json.arr [sampleRawFeatureJson])]

/-- The same raw content with the `"FeatureCollection"` discriminator. -/
def taggedRawJson : Json :=
  Json.obj [("type", Json.str "FeatureCollection"),
            ("features", Json.arr [sampleRawFeatureJson])]

/-- C4 counterexample: `untaggedRawJson` validates as the raw-provider
shape (pydantic only requires `type` to be a string), so the claim
requires `load` to return it transformed — but `load` routes on the
`type == "FeatureCollection"` discriminator, falls into the
normalized-shape branch, fails validation there and returns `None`
rather than the transformed collection. -/
theorem load_untagged_raw_counterexample :
    decodeFunvisisCollection untaggedRawJson =
      some { type := "X", features := [sampleRawFeature] } ∧
    load_sismos (.json untaggedRawJson) = none ∧
    some (transform_funvisis_to_sismos { type := "X", features := [sampleRawFeature] })
      ≠ (none : Option SismosCollection) := by
  refine ⟨by decide, by decide, by simp⟩

/-- C4 (amended): `load` returns null, raising no error, when the file
is absent, when its bytes fail JSON parsing, or when the document is
not a JSON object; routing is by the `type == "FeatureCollection"`
discriminator: with the discriminator present, content validating as
the raw-provider shape is returned transformed to the normalized shape
and content failing that validation yields null; without the
discriminator the result is exactly the normalized-shape validation
(null when it fails) — content validating as raw-provider but lacking
the discriminator is not transformed.  Every non-null result is a
normalized collection (`SismosCollection`) by construction. -/
theorem load_total_and_routed (j : Json) (fields : List (String × Json)) :
    load_sismos .absent = none ∧
    load_sismos .unparseable = none ∧
    ((∀ fs, j ≠ Json.obj fs) → load_sismos (.json j) = none) ∧
    (isFeatureCollectionTag (jsonField fields "type") = true →
      (∀ fc, decodeFunvisisCollection (Json.obj fields) = some fc →
         load_sismos (.json (Json.obj fields)) = some (transform_funvisis_to_sismos fc)) ∧
      (decodeFunvisisCollection (Json.obj fields) = none →
         load_sismos (.json (Json.obj fields)) = none)) ∧
    (isFeatureCollectionTag (jsonField fields "type") = false →
      load_sismos (.json (Json.obj fields)) = decodeSismosCollection (Json.obj fields)) := by
  refine ⟨rfl, rfl, ?_, fun htag => ⟨fun fc hfc => ?_, fun hfc => ?_⟩, fun htag => ?_⟩
  · intro hne
    cases j with
    | obj fs => exact absurd rfl (hne fs)
    | null => rfl
    | str s => rfl
    | num q => rfl
    | arr es => rfl
  · rw [load_sismos, if_pos htag, hfc]
  · rw [load_sismos, if_pos htag, hfc]
  · rw [load_sismos, if_neg (by rw [htag]; exact Bool.false_ne_true)]

/-- Witness for C4: the discriminator branches and the non-object case
at concrete documents. -/
theorem load_total_and_routed_witness :
    load_sismos (.json taggedRawJson) =
      some (transform_funvisis_to_sismos { type := "FeatureCollection",
                                           features := [sampleRawFeature] }) ∧
    load_sismos (.json (Json.arr [])) = none :=
  ⟨(load_total_and_routed (Json.arr [])
       [("type", Json.str "FeatureCollection"),
        ("features", Json.arr [sampleRawFeatureJson])]).2.2.2.1 (by decide) |>.1
     { type := "FeatureCollection", features := [sampleRawFeature] } (by decide),
   (load_total_and_routed (Json.arr []) []).2.2.1
     (fun fs h => Json.noConfusion h)⟩

/-- The snapshot's mtime going into a save: the time of the previous
save, or the initial time when no save happened yet. -/
def lastTime (t0 : Nat) (ts : List Nat) : Nat :=
  ts.getLastD t0

theorem lastTime_cons (t0 s : Nat) (ss : List Nat) :
    lastTime t0 (s :: ss) = lastTime s ss := by
  cases ss with
  | nil => rfl
  | cons x xs =>
    show (s :: x :: xs).getLastD t0 = (x :: xs).getLastD s
    rw [List.getLastD_eq_getLast?, List.getLastD_eq_getLast?, List.getLast?_cons_cons]
    obtain ⟨y, hy⟩ :=
      Option.isSome_iff_exists.mp (List.getLast?_isSome.mpr (List.cons_ne_nil x xs))
    rw [hy]
    rfl

theorem lastTime_concat (t0 t : Nat) (ts : List Nat) :
    lastTime t0 (ts ++ [t]) = t := by
  induction ts generalizing t0 with
  | nil => rfl
  | cons s ss ih => rw [List.cons_append, lastTime_cons, ih]

theorem dropLast_append_lastTime (t0 : Nat) (ts : List Nat) :
    (t0 :: ts).dropLast ++ [lastTime t0 ts] = t0 :: ts := by
  induction ts generalizing t0 with
  | nil => rfl
  | cons s ss ih =>
    rw [lastTime_cons]
    show t0 :: ((s :: ss).dropLast ++ [lastTime s ss]) = t0 :: s :: ss
    rw [ih]

theorem createdBackups_concat (base : String) (ts : List Nat) :
    ∀ (t0 t : Nat),
      createdBackups base t0 (ts ++ [t]) =
        createdBackups base t0 ts ++ [backupEntAt base (lastTime t0 ts) t] := by
  induction ts with
  | nil => intro t0 t; rfl
  | cons s ss ih =>
    intro t0 t
    rw [List.cons_append, createdBackups, createdBackups, ih s t, lastTime_cons]
    rfl

theorem createdBackups_map_mtime (base : String) (ts : List Nat) :
    ∀ t0 : Nat, (createdBackups base t0 ts).map FileEnt.mtime = (t0 :: ts).dropLast := by
  induction ts with
  | nil => intro t0; rfl
  | cons s ss ih =>
    intro t0
    rw [createdBackups, List.map_cons, ih s]
    rfl

theorem createdBackups_map_name (base : String) (ts : List Nat) :
    ∀ t0 : Nat,
      (createdBackups base t0 ts).map FileEnt.name = ts.map (FileName.backupFile base) := by
  induction ts with
  | nil => intro t0; rfl
  | cons s ss ih =>
    intro t0
    rw [createdBackups, List.map_cons, ih s, List.map_cons]
    rfl

theorem createdBackups_length (base : String) (t0 : Nat) (ts : List Nat) :
    (createdBackups base t0 ts).length = ts.length := by
  have h := congrArg List.length (createdBackups_map_name base ts t0)
  simpa using h

theorem reverse_dropLast_eq (l : List FileEnt) :
    l.reverse.dropLast = (l.drop 1).reverse := by
  cases l with
  | nil => rfl
  | cons a l' =>
    rw [List.reverse_cons, List.dropLast_concat, List.drop_one, List.tail_cons]

/-- Inserting an entry newer than everything in a sorted list appends
it at the end. -/
theorem orderedInsert_append_of_gt (a : FileEnt) (l : List FileEnt)
    (h : ∀ x ∈ l, x.mtime < a.mtime) :
    l.orderedInsert mtimeLe a = l ++ [a] := by
  induction l with
  | nil => rfl
  | cons b l' ih =>
    have hx : ¬ mtimeLe a b := not_le.mpr (h b (List.mem_cons_self b l'))
    rw [List.orderedInsert, if_neg hx,
      ih (fun x hx2 => h x (List.mem_cons_of_mem b hx2)), List.cons_append]

/-- Sorting a strictly mtime-descending list by ascending mtime
reverses it. -/
theorem insertionSort_of_desc (l : List FileEnt)
    (h : List.Pairwise (fun a b => b.mtime < a.mtime) l) :
    l.insertionSort mtimeLe = l.reverse := by
  induction l with
  | nil => rfl
  | cons a l' ih =>
    rw [List.insertionSort, ih (List.pairwise_cons.mp h).2, List.reverse_cons]
    exact orderedInsert_append_of_gt a l'.reverse
      (fun x hx => (List.pairwise_cons.mp h).1 x (List.mem_reverse.mp hx))

/-- Writing with `writeEntry` at a name absent from the directory only prepends. -/
theorem writeEntry_of_fresh (n : FileName) (m : Nat) (S : List FileEnt)
    (h : ∀ e ∈ S, e.name ≠ n) :
    writeEntry n m S = { name := n, mtime := m } :: S := by
  rw [writeEntry, List.filter_eq_self.mpr fun e he => decide_eq_true (h e he)]

/-- Overwriting the snapshot entry in a directory of shape
`backup :: snapshot :: rest`. -/
theorem writeEntry_snap_shape (base : String) (m L : Nat) (b : FileEnt) (R : List FileEnt)
    (hb : b.name ≠ FileName.snapshotFile base)
    (hR : ∀ e ∈ R, e.name ≠ FileName.snapshotFile base) :
    writeEntry (FileName.snapshotFile base) m
        (b :: { name := FileName.snapshotFile base, mtime := L } :: R) =
      { name := FileName.snapshotFile base, mtime := m } :: b :: R := by
  rw [writeEntry]
  congr 1
  rw [List.filter_cons, List.filter_cons]
  simp only [decide_eq_true hb]
  simp only [ne_eq, not_true_eq_false, decide_False, Bool.false_eq_true, if_true, if_false,
    ite_true, ite_false]
  exact congrArg (b :: ·) (List.filter_eq_self.mpr fun e he => decide_eq_true (hR e he))

/-- The glob over a directory of shape `backup :: snapshot :: backups`. -/
theorem globBackups_shape (base : String) (t L m : Nat) (R : List FileEnt)
    (hname : ∀ e ∈ R, ∃ s, e.name = FileName.backupFile base s ∧ s ≠ t) :
    globBackups base
        ({ name := FileName.backupFile base t, mtime := m } ::
         { name := FileName.snapshotFile base, mtime := L } :: R) =
      { name := FileName.backupFile base t, mtime := m } :: R := by
  rw [globBackups,
    List.filter_cons_of_pos (by simp [matchesBackupGlob]),
    List.filter_cons_of_neg (by simp [matchesBackupGlob]),
    List.filter_eq_self.mpr]
  intro e he
  obtain ⟨s, hs, _⟩ := hname e he
  simp [matchesBackupGlob, hs]

/-- One save with backup against a directory in the shape the save
loop maintains: current snapshot first, then at most five backups in
strictly descending mtime order, all older than the snapshot.  The
result starts with the overwritten snapshot and the new backup; the
oldest previous backup is dropped exactly when five were present. -/
theorem save_step (base : String) (t L : Nat) (R : List FileEnt)
    (hname : ∀ e ∈ R, ∃ s, e.name = FileName.backupFile base s ∧ s ≠ t)
    (hdesc : List.Pairwise (fun a b => b.mtime < a.mtime) R)
    (hlt : ∀ e ∈ R, e.mtime < L)
    (hle : R.length ≤ 5) :
    save_sismos_files base t true
        ({ name := FileName.snapshotFile base, mtime := L } :: R) =
      { name := FileName.snapshotFile base, mtime := t } ::
      { name := FileName.backupFile base t, mtime := L } ::
      (if R.length < 5 then R else R.dropLast) := by
  have hsnapR : ∀ e ∈ R, e.name ≠ FileName.snapshotFile base := by
    intro e he hn
    obtain ⟨s, hs, _⟩ := hname e he
    rw [hs] at hn
    exact FileName.noConfusion hn
  have hbkpR : ∀ e ∈ R, e.name ≠ FileName.backupFile base t := by
    intro e he hn
    obtain ⟨s, hs, hst⟩ := hname e he
    rw [hs] at hn
    injection hn with _ h2
    exact hst h2
  have hany : (({ name := FileName.snapshotFile base, mtime := L } : FileEnt) :: R).any
      (fun f => decide (f.name = FileName.snapshotFile base)) = true := by
    simp [List.any_cons]
  have hfind : (({ name := FileName.snapshotFile base, mtime := L } : FileEnt) :: R).find?
      (fun f => decide (f.name = FileName.snapshotFile base)) =
      some { name := FileName.snapshotFile base, mtime := L } :=
    List.find?_cons_of_pos _ (by simp)
  have hwrite1 : writeEntry (FileName.backupFile base t) L
      ({ name := FileName.snapshotFile base, mtime := L } :: R) =
      { name := FileName.backupFile base t, mtime := L } ::
      { name := FileName.snapshotFile base, mtime := L } :: R := by
    refine writeEntry_of_fresh _ _ _ ?_
    intro e he
    rcases List.mem_cons.mp he with rfl | heR
    · exact fun hn => FileName.noConfusion hn
    · exact hbkpR e heR
  have hglob : globBackups base
      ({ name := FileName.backupFile base t, mtime := L } ::
       { name := FileName.snapshotFile base, mtime := L } :: R) =
      { name := FileName.backupFile base t, mtime := L } :: R :=
    globBackups_shape base t L L R hname
  rw [save_sismos_files, if_pos (by rw [hany]; rfl), create_backup, hfind]
  show writeEntry (FileName.snapshotFile base) t
      (cleanup_old_backups base (writeEntry (FileName.backupFile base t) L
        ({ name := FileName.snapshotFile base, mtime := L } :: R))) = _
  rw [hwrite1]
  by_cases hR : R.length < 5
  · rw [cleanup_old_backups_of_le base _ (by rw [hglob]; simp only [List.length_cons]; omega),
      writeEntry_snap_shape base t L _ R (fun hn => FileName.noConfusion hn) hsnapR,
      if_pos hR]
  · have hR5 : R.length = 5 := le_antisymm hle (not_lt.mp hR)
    obtain ⟨R', e, hRe⟩ : ∃ R' e, R = R' ++ [e] := by
      rcases List.eq_nil_or_concat R with h0 | ⟨R', e, h⟩
      · rw [h0] at hR5; cases hR5
      · exact ⟨R', e, by rw [h, List.concat_eq_append]⟩
    have hmemE : e ∈ R := by
      rw [hRe]
      exact List.mem_append_right _ (List.mem_cons_self e [])
    have hgt : (globBackups base
        ({ name := FileName.backupFile base t, mtime := L } ::
         { name := FileName.snapshotFile base, mtime := L } :: R)).length > 5 := by
      rw [hglob]
      simp [hR5]
    have hsorted : (({ name := FileName.backupFile base t, mtime := L } : FileEnt)
          :: R).insertionSort mtimeLe =
        R.reverse ++ [{ name := FileName.backupFile base t, mtime := L }] := by
      rw [List.insertionSort, insertionSort_of_desc R hdesc]
      exact orderedInsert_append_of_gt _ _ (fun x hx => hlt x (List.mem_reverse.mp hx))
    have htake : (R.reverse ++ [({ name := FileName.backupFile base t, mtime := L } :
          FileEnt)]).take
        ((R.reverse ++ [({ name := FileName.backupFile base t, mtime := L } :
          FileEnt)]).length - 5) = [e] := by
      have hlen6 : (R.reverse ++ [({ name := FileName.backupFile base t, mtime := L } :
          FileEnt)]).length = 6 := by
        simp [hR5]
      rw [hlen6, hRe]
      simp
    have hbkpNe : ({ name := FileName.backupFile base t, mtime := L } : FileEnt) ≠ e := by
      intro h
      exact hbkpR e hmemE (by rw [← h])
    have hsnapNe : ({ name := FileName.snapshotFile base, mtime := L } : FileEnt) ≠ e := by
      intro h
      exact hsnapR e hmemE (by rw [← h])
    have hR'ne : ∀ x ∈ R', x ≠ e := by
      intro x hx hxe
      have hcross := (List.pairwise_append.mp (hRe ▸ hdesc)).2.2
      have h1 : e.mtime < x.mtime := hcross x hx e (List.mem_cons_self e [])
      rw [hxe] at h1
      exact lt_irrefl _ h1
    have hcleanup : cleanup_old_backups base
        ({ name := FileName.backupFile base t, mtime := L } ::
         { name := FileName.snapshotFile base, mtime := L } :: R) =
        { name := FileName.backupFile base t, mtime := L } ::
        { name := FileName.snapshotFile base, mtime := L } :: R' := by
      rw [cleanup_old_backups_of_gt base _ hgt, hglob, hsorted, htake]
      have hd1 : decide (({ name := FileName.backupFile base t, mtime := L } : FileEnt)
          ∉ [e]) = true :=
        decide_eq_true (by simp only [List.mem_singleton]; exact hbkpNe)
      have hd2 : decide (({ name := FileName.snapshotFile base, mtime := L } : FileEnt)
          ∉ [e]) = true :=
        decide_eq_true (by simp only [List.mem_singleton]; exact hsnapNe)
      have hd3 : decide ((e : FileEnt) ∉ [e]) = false :=
        decide_eq_false (fun hne => hne (List.mem_singleton_self e))
      rw [List.filter_cons, List.filter_cons]
      simp only [hd1, hd2, if_true, ite_true, eq_self_iff_true]
      rw [hRe, List.filter_append,
        List.filter_eq_self.mpr (fun x hx => decide_eq_true (by
          simp only [List.mem_singleton]
          exact hR'ne x hx)),
        List.filter_cons, List.filter_nil]
      simp only [hd3, Bool.false_eq_true, if_false, ite_false, List.append_nil]
    rw [hcleanup,
      writeEntry_snap_shape base t L _ R' (fun hn => FileName.noConfusion hn)
        (fun x hx => hsnapR x (hRe ▸ List.mem_append_left [e] hx)),
      if_neg hR, hRe, List.dropLast_concat]

theorem iterSaves_append (base : String) (ts1 ts2 : List Nat) (fs : List FileEnt) :
    iterSaves base (ts1 ++ ts2) fs = iterSaves base ts2 (iterSaves base ts1 fs) := by
  simp [iterSaves, List.foldl_append]

/-- Closed form of the save loop: starting from a directory holding
only the snapshot (mtime `t0`), after saves at strictly increasing
times `ts` the directory holds the freshly written snapshot followed by
the backups of the last (up to) five saves, newest first. -/
theorem iterSaves_closed (base : String) (ts : List Nat) :
    ∀ t0 : Nat, List.Chain' (· < ·) (t0 :: ts) →
      iterSaves base ts [{ name := FileName.snapshotFile base, mtime := t0 }] =
        { name := FileName.snapshotFile base, mtime := lastTime t0 ts } ::
          ((createdBackups base t0 ts).drop (ts.length - 5)).reverse := by
  induction ts using List.reverseRecOn with
  | nil => intro t0 _; rfl
  | append_singleton ts t ih =>
    intro t0 h'
    have h'' : List.Chain' (· < ·) ((t0 :: ts) ++ [t]) := by
      rw [List.cons_append]; exact h'
    have hpw : List.Pairwise (· < ·) ((t0 :: ts) ++ [t]) :=
      List.chain'_iff_pairwise.mp h''
    obtain ⟨pw1, _, hcross'⟩ := List.pairwise_append.mp hpw
    have hcross : ∀ x ∈ t0 :: ts, x < t :=
      fun x hx => hcross' x hx t (List.mem_singleton_self t)
    have hch : List.Chain' (· < ·) (t0 :: ts) := List.chain'_iff_pairwise.mpr pw1
    have hmtimes : List.Pairwise (· < ·) ((createdBackups base t0 ts).map FileEnt.mtime) := by
      rw [createdBackups_map_mtime]
      exact pw1.sublist (List.dropLast_sublist (t0 :: ts))
    have hD : List.Pairwise (fun a b => a.mtime < b.mtime)
        ((createdBackups base t0 ts).drop (ts.length - 5)) :=
      (List.pairwise_map.mp hmtimes).sublist (List.drop_sublist _ _)
    have hnameR : ∀ e ∈ ((createdBackups base t0 ts).drop (ts.length - 5)).reverse,
        ∃ s, e.name = FileName.backupFile base s ∧ s ≠ t := by
      intro e he
      have h1 : e ∈ createdBackups base t0 ts :=
        List.mem_of_mem_drop (List.mem_reverse.mp he)
      have h2 : e.name ∈ ts.map (FileName.backupFile base) := by
        rw [← createdBackups_map_name base ts t0]
        exact List.mem_map_of_mem FileEnt.name h1
      obtain ⟨s, hsmem, hseq⟩ := List.mem_map.mp h2
      exact ⟨s, hseq.symm, ne_of_lt (hcross s (List.mem_cons_of_mem t0 hsmem))⟩
    have hdescR : List.Pairwise (fun a b => b.mtime < a.mtime)
        ((createdBackups base t0 ts).drop (ts.length - 5)).reverse :=
      List.pairwise_reverse.mpr hD
    have hltR : ∀ e ∈ ((createdBackups base t0 ts).drop (ts.length - 5)).reverse,
        e.mtime < lastTime t0 ts := by
      intro e he
      have h1 : e ∈ createdBackups base t0 ts :=
        List.mem_of_mem_drop (List.mem_reverse.mp he)
      have h2 : e.mtime ∈ (t0 :: ts).dropLast := by
        rw [← createdBackups_map_mtime base ts t0]
        exact List.mem_map_of_mem FileEnt.mtime h1
      have h3 : List.Pairwise (· < ·) ((t0 :: ts).dropLast ++ [lastTime t0 ts]) := by
        rw [dropLast_append_lastTime]
        exact pw1
      exact (List.pairwise_append.mp h3).2.2 e.mtime h2 _ (List.mem_singleton_self _)
    have hleR : ((createdBackups base t0 ts).drop (ts.length - 5)).reverse.length ≤ 5 := by
      rw [List.length_reverse, List.length_drop, createdBackups_length]
      omega
    rw [iterSaves_append]
    show save_sismos_files base t true
        (iterSaves base ts [{ name := FileName.snapshotFile base, mtime := t0 }]) = _
    rw [ih t0 hch,
      save_step base t (lastTime t0 ts) _ hnameR hdescR hltR hleR,
      lastTime_concat, createdBackups_concat]
    congr 1
    show ({ name := FileName.backupFile base t, mtime := lastTime t0 ts } : FileEnt) ::
        (if ((createdBackups base t0 ts).drop (ts.length - 5)).reverse.length < 5
         then ((createdBackups base t0 ts).drop (ts.length - 5)).reverse
         else ((createdBackups base t0 ts).drop (ts.length - 5)).reverse.dropLast) = _
    by_cases hn : ts.length < 5
    · rw [if_pos (by rw [List.length_reverse, List.length_drop, createdBackups_length]; omega)]
      have h05 : ts.length - 5 = 0 := by omega
      have h05' : (ts.length + 1) - 5 = 0 := by omega
      rw [h05, List.drop_zero, List.length_append]
      show _ = ((createdBackups base t0 ts ++
          [backupEntAt base (lastTime t0 ts) t]).drop (ts.length + 1 - 5)).reverse
      rw [h05', List.drop_zero, List.reverse_append]
      rfl
    · rw [if_neg (by rw [List.length_reverse, List.length_drop, createdBackups_length]; omega)]
      rw [reverse_dropLast_eq, List.drop_drop, List.length_append]
      show _ = ((createdBackups base t0 ts ++
          [backupEntAt base (lastTime t0 ts) t]).drop (ts.length + 1 - 5)).reverse
      rw [List.drop_append_eq_append_drop]
      have h1 : ts.length - 5 + 1 = ts.length + 1 - 5 := by omega
      have h2 : ts.length + 1 - 5 - (createdBackups base t0 ts).length = 0 := by
        rw [createdBackups_length]; omega
      rw [h1, h2, List.drop_zero, List.reverse_append]
      rfl

/-- C5: starting from a directory holding only the pre-existing
snapshot, after `B > 5` saves with `backup = true` at strictly
increasing times, exactly 5 backup files remain, and they are the 5
most recently created ones (the backups of the last five saves, each
carrying the snapshot mtime it copied); the snapshot file itself is
still present.  Pruning — glob, sort by mtime ascending, delete all but
the newest 5 — runs inside `_create_backup` after every successful
copy, which is how the model reaches this state. -/
theorem backup_retention (base : String) (t0 : Nat) (ts : List Nat)
    (hinc : List.Chain' (· < ·) (t0 :: ts)) (hB : 5 < ts.length) :
    (globBackups base (iterSaves base ts
        [{ name := FileName.snapshotFile base, mtime := t0 }])).length = 5 ∧
    globBackups base
        (iterSaves base ts [{ name := FileName.snapshotFile base, mtime := t0 }]) =
      ((createdBackups base t0 ts).drop (ts.length - 5)).reverse ∧
    iterSaves base ts [{ name := FileName.snapshotFile base, mtime := t0 }] =
      { name := FileName.snapshotFile base, mtime := lastTime t0 ts } ::
        ((createdBackups base t0 ts).drop (ts.length - 5)).reverse := by
  have hclosed := iterSaves_closed base ts t0 hinc
  have hglobeq : globBackups base
      (iterSaves base ts [{ name := FileName.snapshotFile base, mtime := t0 }]) =
      ((createdBackups base t0 ts).drop (ts.length - 5)).reverse := by
    rw [hclosed, globBackups,
      List.filter_cons_of_neg (by simp [matchesBackupGlob]),
      List.filter_eq_self.mpr]
    intro e he
    have h1 : e ∈ createdBackups base t0 ts :=
      List.mem_of_mem_drop (List.mem_reverse.mp he)
    have h2 : e.name ∈ ts.map (FileName.backupFile base) := by
      rw [← createdBackups_map_name base ts t0]
      exact List.mem_map_of_mem FileEnt.name h1
    obtain ⟨s, _, hseq⟩ := List.mem_map.mp h2
    rw [← hseq]
    simp [matchesBackupGlob]
  refine ⟨?_, hglobeq, hclosed⟩
  rw [hglobeq, List.length_reverse, List.length_drop, createdBackups_length]
  omega

/-- Witness for C5: seven saves at times 1..7 over a snapshot created
at time 0. -/
theorem backup_retention_witness :
    (globBackups "data.json" (iterSaves "data.json" [1, 2, 3, 4, 5, 6, 7]
        [{ name := FileName.snapshotFile "data.json", mtime := 0 }])).length = 5 ∧
    globBackups "data.json" (iterSaves "data.json" [1, 2, 3, 4, 5, 6, 7]
        [{ name := FileName.snapshotFile "data.json", mtime := 0 }]) =
      ((createdBackups "data.json" 0 [1, 2, 3, 4, 5, 6, 7]).drop
        ([1, 2, 3, 4, 5, 6, 7].length - 5)).reverse ∧
    iterSaves "data.json" [1, 2, 3, 4, 5, 6, 7]
        [{ name := FileName.snapshotFile "data.json", mtime := 0 }] =
      { name := FileName.snapshotFile "data.json",
        mtime := lastTime 0 [1, 2, 3, 4, 5, 6, 7] } ::
        ((createdBackups "data.json" 0 [1, 2, 3, 4, 5, 6, 7]).drop
          ([1, 2, 3, 4, 5, 6, 7].length - 5)).reverse :=
  backup_retention "data.json" 0 [1, 2, 3, 4, 5, 6, 7]
    (List.chain'_iff_pairwise.mpr (by decide)) (by decide)
